import Mathlib

/-! ## go-sshlib `forward.go`: X11 and TCP forwarding

A shallow embedding of `src/forward.go` and the properties of its credential
reader (`readAuthority`, `getBytes`, `getString`), of the X11 request set-up
(`X11Forward`, `getX11Display`, `x11Connect`) and of the two relays
(`x11forwarder`, `forwarder`).

Conventions of the embedding:

* a Go `string` or `[]byte` is a list of bytes (`List Byte`), compared bytewise;
* an `io.Reader` over a file is the list of bytes not yet read; a read never
  fails for a reason other than the end of the file;
* a function that reads takes the reader and returns the reader it leaves;
* the scratch buffer `b` of `readAuthority` is passed and returned explicitly;
* the `nil` slice is `none`, a non-nil slice is `some`;
* a run-time panic is the outcome `panic`.
-/

namespace Sshlib

/-! ## Bytes, strings, errors -/

/-- One byte. -/
abbrev Byte := Fin 256

/-- A Go string: an immutable sequence of bytes. -/
abbrev GoString := List Byte

/-- The bytes of an ASCII string literal of the source. -/
def ascii (s : String) : GoString :=
  s.data.map fun c => Fin.ofNat c.toNat

/-- The error values that `forward.go` returns or passes on. -/
inductive Error where
  /-- The value `io.EOF`. -/
  | EOF
  /-- The value `io.ErrUnexpectedEOF`. -/
  | ErrUnexpectedEOF
  /-- The error `errors.New("bytes too long for buffer")` of `getBytes`. -/
  | bytesTooLong
  /-- The error `errors.New("Xauthority not found: $XAUTHORITY, $HOME not set")`. -/
  | xauthorityNotFound
  /-- The error `errors.New("bad display string: " + display0)`. -/
  | badDisplay (display0 : GoString)
  /-- The error `errors.New("ssh: x11-req failed")`. -/
  | x11ReqFailed
  /-- An error produced by the operating system or by the SSH transport. -/
  | sys (code : Nat)
  deriving DecidableEq, Repr

/-- The unread part of a file opened for reading. -/
abbrev Reader := List Byte

/-! ## Library functions used by the reader -/

/-- The call `io.ReadFull(r, buf)` with `len(buf) = n`: the bytes stored into
`buf`, the error, and the reader afterwards. With `n = 0` nothing is read and
there is no error; with fewer than `n` bytes left the error is `io.EOF` when
nothing was read and `io.ErrUnexpectedEOF` otherwise. -/
def ReadFull (r : Reader) (n : Nat) : List Byte × Option Error × Reader :=
  if n ≤ r.length then (r.take n, none, r.drop n)
  else if r = [] then ([], some .EOF, [])
  else (r, some .ErrUnexpectedEOF, [])

/-- The call `binary.Read(r, binary.BigEndian, &v)` for `v` of type `uint16`:
`io.ReadFull` of two bytes, decoded high byte first. The last case does not
occur: without an error `io.ReadFull` has stored both bytes. -/
def binaryReadUint16 (r : Reader) : Except Error Nat × Reader :=
  match ReadFull r 2 with
  | (_, some err, r1) => (.error err, r1)
  | (hi :: lo :: _, none, r1) => (.ok (hi.val * 256 + lo.val), r1)
  | (_, none, r1) => (.error .ErrUnexpectedEOF, r1)

/-! ## The credential reader -/

/-- Contents of the scratch buffer `b` after `got` has been read into its
front (`io.ReadFull(r, b[0:n])` writes through the slice into `b`). -/
def bufAfter (b got : List Byte) : List Byte :=
  got ++ b.drop got.length

/-- The function `getBytes`, lines 199-211. Returns the slice `b[0:n]` (its contents), the
reader and the scratch buffer afterwards. -/
def getBytes (r : Reader) (b : List Byte) :
    Except Error (List Byte) × Reader × List Byte :=
  match binaryReadUint16 r with
  | (.error err, r1) => (.error err, r1, b)
  | (.ok n, r1) =>
    if n > b.length % 65536 then (.error .bytesTooLong, r1, b)
    else
      match ReadFull r1 n with
      | (got, some err, r2) => (.error err, r2, bufAfter b got)
      | (got, none, r2) => (.ok ((bufAfter b got).take n), r2, bufAfter b got)

/-- The function `getString`, lines 214-220: `getBytes`, then the copy `string(b)`. -/
def getString (r : Reader) (b : List Byte) :
    Except Error GoString × Reader × List Byte :=
  match getBytes r b with
  | (.error err, r1, b1) => (.error err, r1, b1)
  | (.ok s, r1, b1) => (.ok s, r1, b1)

/-- The three results `(name, data, err)` of `readAuthority`. -/
structure AuthResult where
  name : GoString
  data : Option (List Byte)
  err : Option Error
  deriving DecidableEq, Repr

/-- The constant `familyLocal` of `readAuthority`. -/
def familyLocal : Nat := 256

/-- The `for` loop of `readAuthority`, lines 164-193, run for at most `fuel`
iterations; `none` when the iterations are used up. `data0` is a slice of the
scratch buffer and is returned before anything else is read into it. -/
def readAuthorityLoop :
    Nat → Reader → List Byte → GoString → GoString → Option AuthResult
  | 0, _, _, _, _ => none
  | fuel + 1, r, b, hostname, display =>
    match binaryReadUint16 r with
    | (.error err, _) => some ⟨[], none, some err⟩
    | (.ok family, r) =>
    match getString r b with
    | (.error err, _, _) => some ⟨[], none, some err⟩
    | (.ok addr, r, b) =>
    match getString r b with
    | (.error err, _, _) => some ⟨[], none, some err⟩
    | (.ok disp, r, b) =>
    match getString r b with
    | (.error err, _, _) => some ⟨[], none, some err⟩
    | (.ok name0, r, b) =>
    match getBytes r b with
    | (.error err, _, _) => some ⟨[], none, some err⟩
    | (.ok data0, r, b) =>
      if family = familyLocal ∧ addr = hostname ∧ disp = display then
        some ⟨name0, some data0, none⟩
      else
        readAuthorityLoop fuel r b hostname display

/-- The allocation `make([]byte, n)`: `n` zero bytes. -/
def makeBytes (n : Nat) : List Byte :=
  List.replicate n 0

/-- What `readAuthority` reads from the process and the file system. -/
structure Env where
  /-- The function `os.Getenv`; an unset variable reads as the empty string. -/
  Getenv : String → GoString
  /-- The result of `os.Hostname()`. -/
  Hostname : Except Error GoString
  /-- The result of `os.Open(fname)`: the contents of the file, or the error. -/
  Open : GoString → Except Error (List Byte)

/-- The hostname to look for, lines 141-146. -/
def resolveHostname (env : Env) (hostname : GoString) : Except Error GoString :=
  if hostname.length = 0 ∨ hostname = ascii "localhost" then env.Hostname
  else .ok hostname

/-- The name of the authority file, lines 148-156. -/
def authorityFileName (env : Env) : Except Error GoString :=
  let fname := env.Getenv "XAUTHORITY"
  if fname.length = 0 then
    let home := env.Getenv "HOME"
    if home.length = 0 then .error .xauthorityNotFound
    else .ok (home ++ ascii "/.Xauthority")
  else .ok fname

/-- The function `readAuthority`, lines 131-196. The loop reads at least two bytes per
iteration, so it is given one more iteration than the file has bytes. -/
def readAuthority (env : Env) (hostname display : GoString) : Option AuthResult :=
  let b : List Byte := makeBytes 256
  match resolveHostname env hostname with
  | .error err => some ⟨[], none, some err⟩
  | .ok hostname =>
    match authorityFileName env with
    | .error err => some ⟨[], none, some err⟩
    | .ok fname =>
      match env.Open fname with
      | .error err => some ⟨[], none, some err⟩
      | .ok r => readAuthorityLoop (r.length + 1) r b hostname display

/-! ## The layout of the authority file -/

/-- One record of the authority file. -/
structure Record where
  family : Nat
  address : GoString
  display : GoString
  authName : GoString
  authData : List Byte
  deriving DecidableEq, Repr

/-- Two bytes, high byte first. -/
def encodeUint16 (n : Nat) : List Byte :=
  [⟨n / 256 % 256, Nat.mod_lt _ (by decide)⟩, ⟨n % 256, Nat.mod_lt _ (by decide)⟩]

/-- A length-prefixed field: the length as two bytes, then the bytes. -/
def encodeField (f : List Byte) : List Byte :=
  encodeUint16 f.length ++ f

/-- A complete record: the family, then address, display, authName and
authData as length-prefixed fields. -/
def encodeRecord (rec : Record) : List Byte :=
  encodeUint16 rec.family ++ (encodeField rec.address ++ (encodeField rec.display ++
    (encodeField rec.authName ++ encodeField rec.authData)))

/-- A sequence of complete records, one after the other. -/
def encodeRecords : List Record → List Byte
  | [] => []
  | rec :: recs => encodeRecord rec ++ encodeRecords recs

/-- The family fits two bytes and no field is longer than 256 bytes. -/
def Record.WellFormed (rec : Record) : Prop :=
  rec.family < 65536 ∧ rec.address.length ≤ 256 ∧ rec.display.length ≤ 256 ∧
    rec.authName.length ≤ 256 ∧ rec.authData.length ≤ 256

instance (rec : Record) : Decidable rec.WellFormed := by
  unfold Record.WellFormed; infer_instance

/-- The record is the one looked for: family 256, the hostname, the display. -/
def Record.isMatch (hostname display : GoString) (rec : Record) : Bool :=
  decide (rec.family = 256 ∧ rec.address = hostname ∧ rec.display = display)

/-- The scratch buffer after the four fields of a record have been read. -/
def bufAfterRecord (b : List Byte) (rec : Record) : List Byte :=
  bufAfter (bufAfter (bufAfter (bufAfter b rec.address) rec.display) rec.authName)
    rec.authData

/-- Complete length-prefixed fields, one after the other. -/
def encodeFields : List (List Byte) → List Byte
  | [] => []
  | f :: fs => encodeField f ++ encodeFields fs

/-! ## A sample authority file -/

/-- The record of the end-to-end scenario: family 256, address `myhost`,
display `0`, a 16-byte cookie. -/
def sampleRecord : Record :=
  ⟨256, ascii "myhost", ascii "0", ascii "MIT-MAGIC-COOKIE-1",
    [1, 35, 69, 103, 137, 171, 205, 239, 254, 220, 186, 152, 118, 84, 50, 16]⟩

/-- A record for another address family (0, an IPv4 address). -/
def inetRecord : Record :=
  ⟨0, [127, 0, 0, 1], ascii "0", ascii "MIT-MAGIC-COOKIE-1",
    [0, 17, 34, 51, 68, 85, 102, 119, 136, 153, 170, 187, 204, 221, 238, 255]⟩

/-- A process on the machine `myhost` with `XAUTHORITY` set, whose authority
file has the contents `file`. -/
def sampleEnv (file : List Byte) : Env where
  Getenv := fun key => if key = "XAUTHORITY" then ascii "/home/u/.Xauthority" else []
  Hostname := .ok (ascii "myhost")
  Open := fun _ => .ok file

/-! ## The `DISPLAY` variable -/

/-- A Go function either returns or panics at run time. -/
inductive Outcome (α : Type) where
  | ret (a : α)
  | panic
  deriving DecidableEq, Repr

/-- Scan for `strings.LastIndex`: `i` is the index of the head of the list,
`last` the index of the last occurrence seen so far. -/
def lastIndexFrom (c : Byte) : List Byte → Nat → Int → Int
  | [], _, last => last
  | x :: xs, i, last => lastIndexFrom c xs (i + 1) (if x = c then (i : Int) else last)

/-- The call `strings.LastIndex(s, sep)` for a separator of one byte: the index
of its last occurrence in `s`, or `-1`. -/
def LastIndex (s : GoString) (c : Byte) : Int :=
  lastIndexFrom c s 0 (-1)

/-- The slice expression `s[lo:hi]` of a string: a run-time panic unless
`0 ≤ lo ≤ hi ≤ len(s)`. -/
def sliceString (s : GoString) (lo hi : Int) : Outcome GoString :=
  if 0 ≤ lo ∧ lo ≤ hi ∧ hi ≤ (s.length : Int) then
    .ret ((s.drop lo.toNat).take (hi.toNat - lo.toNat))
  else .panic

/-- The byte `:`. -/
def colon : Byte := 58

/-- The byte `.`. -/
def dot : Byte := 46

/-- The byte `/`. -/
def slash : Byte := 47

/-- What `getX11Display` hands to `return`: the constant `0` on line 123, the
string slice on line 126 (the declared result type is `int`). -/
inductive DisplayValue where
  | number (n : Int)
  | text (s : GoString)
  deriving DecidableEq, Repr

/-- The function `getX11Display`, lines 117-127, on the value of `DISPLAY`. -/
def getX11Display (env : Env) : Outcome DisplayValue :=
  let display := env.Getenv "DISPLAY"
  let colonIdx := LastIndex display colon
  let dotIdx := LastIndex display dot
  if colonIdx < 0 then .ret (.number 0)
  else
    match sliceString display (colonIdx + 1) dotIdx with
    | .panic => .panic
    | .ret s => .ret (.text s)

/-- A network connection or SSH channel, by its identity. -/
structure Conn where
  id : Nat
  deriving DecidableEq, Repr

/-- The function `x11Connect`, lines 65-86; `Dial` is `net.Dial`. The result stands for the
pair `(conn, err)`. -/
def x11Connect (env : Env) (Dial : String → GoString → Except Error Conn) :
    Outcome (Except Error Conn) :=
  let display := env.Getenv "DISPLAY"
  let display0 := display
  let colonIdx := LastIndex display colon
  let dotIdx := LastIndex display dot
  if colonIdx < 0 then .ret (.error (.badDisplay display0))
  else
    match display with
    | [] => .panic
    | c :: _ =>
      if c = slash then .ret (Dial "unix" display)
      else
        match sliceString display (colonIdx + 1) dotIdx with
        | .panic => .panic
        | .ret s => .ret (Dial "unix" (ascii "/tmp/.X11-unix/X" ++ s))

/-- A process in which only `DISPLAY` is set. -/
def displayEnv (display : GoString) : Env where
  Getenv := fun key => if key = "DISPLAY" then display else []
  Hostname := .ok (ascii "myhost")
  Open := fun _ => .error (.sys 2)

/-- A `net.Dial` that succeeds on every address. -/
def dialOk : String → GoString → Except Error Conn :=
  fun _ _ => .ok ⟨1⟩

/-- A `net.Dial` that is refused on every address. -/
def dialRefused : String → GoString → Except Error Conn :=
  fun _ _ => .error (.sys 111)

/-! ## The `x11-req` request -/

/-- The payload struct `x11request` of the request `x11-req`. -/
structure x11request where
  SingleConnection : Bool
  AuthProtocol : GoString
  AuthCookie : GoString
  ScreenNumber : Nat
  deriving DecidableEq, Repr

/-- The lowercase hexadecimal digit of a value below 16. -/
def hexDigit (n : Nat) : Byte :=
  if n < 10 then Fin.ofNat (48 + n) else Fin.ofNat (87 + n)

/-- The call `fmt.Sprintf("%02x", d)` for a byte `d`: two lowercase
hexadecimal digits, high digit first. -/
def sprintf02x (d : Byte) : GoString :=
  [hexDigit (d.val / 16), hexDigit (d.val % 16)]

/-- The loop of lines 29-32: the cookie grows by two digits per byte. -/
def cookieOf (xAuth : List Byte) : GoString :=
  xAuth.foldl (fun cookie d => cookie ++ sprintf02x d) []

/-- The payload built on lines 35-40. -/
def x11Payload (xAuth : List Byte) : x11request where
  SingleConnection := false
  AuthProtocol := ascii "MIT-MAGIC-COOKIE-1"
  AuthCookie := cookieOf xAuth
  ScreenNumber := 0

/-- What a call of `X11Forward` has done on the session and the client: the
requests sent with `SendRequest` (name, want-reply flag, payload before
`ssh.Marshal`), the channel types passed to `HandleChannelOpen`, and the number
of accept loops started with `go`. -/
structure Started where
  requests : List (String × Bool × x11request)
  handled : List String
  acceptLoops : Nat
  deriving DecidableEq, Repr

/-- The method `X11Forward`, lines 22-61. `SendRequest` is the reply `(ok, err)` of the
session to a request. The body ends on line 61 without a `return`; the result
is the value the named result `err` has there. `none` only when the loop of
`readAuthority` has no iterations left. -/
def X11Forward (env : Env) (SendRequest : String → Bool → x11request → Bool × Option Error) :
    Option (Outcome (Option Error × Started)) :=
  match getX11Display env with
  | .panic => some .panic
  | .ret _ =>
    match readAuthority env (ascii "") (ascii "0") with
    | none => none
    | some ⟨_, _, some err⟩ => some (.ret (some err, ⟨[], [], 0⟩))
    | some ⟨_, xAuth, none⟩ =>
      let payload := x11Payload (xAuth.getD [])
      match SendRequest "x11-req" true payload with
      | (ok, err) =>
        if err = none ∧ ok = false then
          some (.ret (some .x11ReqFailed, ⟨[("x11-req", true, payload)], [], 0⟩))
        else
          some (.ret (err, ⟨[("x11-req", true, payload)], ["x11"], 1⟩))

/-- The value of a hexadecimal digit, as `encoding/hex` reads it. -/
def hexValue (c : Byte) : Option Nat :=
  if 48 ≤ c.val ∧ c.val ≤ 57 then some (c.val - 48)
  else if 97 ≤ c.val ∧ c.val ≤ 102 then some (c.val - 87)
  else if 65 ≤ c.val ∧ c.val ≤ 70 then some (c.val - 55)
  else none

/-- Hex-decoding of a string: two digits per byte, as `hex.DecodeString`. -/
def hexDecode : GoString → Option (List Byte)
  | [] => some []
  | [_] => none
  | hi :: lo :: rest =>
    match hexValue hi, hexValue lo, hexDecode rest with
    | some h, some l, some bytes => some (Fin.ofNat (h * 16 + l) :: bytes)
    | _, _, _ => none

/-- The character is one of `0`-`9`, `a`-`f`. -/
def isLowerHex (c : Byte) : Bool :=
  (48 ≤ c.val && c.val ≤ 57) || (97 ≤ c.val && c.val ≤ 102)

/-! ## The relays -/

/-- The two connections of a relay: the one handed to the function (the
`channel` of `x11forwarder`, the `local` of `forwarder`) and the one it dials
(`conn`, `remote`). -/
inductive Endpoint where
  | accepted
  | dialed
  deriving DecidableEq, Repr

/-- The statements of the goroutines of a relay. -/
inductive Op where
  /-- The call `io.Copy(dst, src)`. -/
  | copy (dst src : Endpoint)
  /-- The call `CloseWrite()` on a connection. -/
  | closeWrite (e : Endpoint)
  /-- The call `Close()` on a connection. -/
  | close (e : Endpoint)
  /-- The call `wg.Done()`. -/
  | done
  /-- The call `wg.Wait()`. -/
  | wait
  deriving DecidableEq, Repr

/-- What a relay has done so far. -/
inductive Event where
  /-- The call `io.Copy(dst, src)` has returned. -/
  | copied (dst src : Endpoint)
  | closeWrite (e : Endpoint)
  | close (e : Endpoint)
  /-- A method was called on the nil connection of a failed dial. -/
  | nilDereference
  deriving DecidableEq, Repr

/-- The goroutines of a relay. -/
inductive Tid where
  | main
  | first
  | second
  deriving DecidableEq, Repr

/-- The state of a relay: the statements each goroutine still has to run, the
counter of the wait group, whether the dialed connection is nil, whether the
process has crashed, and the events so far. -/
structure Relay where
  main : List Op
  first : List Op
  second : List Op
  wg : Nat
  dialedNil : Bool
  crashed : Bool
  trace : List Event
  deriving DecidableEq, Repr

/-- The endpoint is the nil connection. -/
def Relay.isNil (s : Relay) : Endpoint → Bool
  | .dialed => s.dialedNil
  | .accepted => false

/-- A use of endpoint `e` that produces event `ev`, or the crash on nil. -/
def Relay.use (s : Relay) (e : Endpoint) (ev : Event) : Relay :=
  if s.isNil e then { s with crashed := true, trace := s.trace ++ [.nilDereference] }
  else { s with trace := s.trace ++ [ev] }

/-- One statement; `none` when it blocks (`wg.Wait()` with a counter above 0).
A copy is run in one step, the moment `io.Copy` returns; a copy from or to the
nil connection is the call on nil that its first read or write makes. -/
def exec (op : Op) (s : Relay) : Option Relay :=
  match op with
  | .copy dst src =>
    if s.isNil src then some (s.use src (.copied dst src))
    else some (s.use dst (.copied dst src))
  | .closeWrite e => some (s.use e (.closeWrite e))
  | .close e => some (s.use e (.close e))
  | .done => some { s with wg := s.wg - 1 }
  | .wait => if s.wg = 0 then some s else none

/-- Goroutine `t` runs its next statement, if it has one that does not block
and the process has not crashed. -/
def step (t : Tid) (s : Relay) : Relay :=
  if s.crashed then s
  else
    match t with
    | .main =>
      match s.main with
      | [] => s
      | op :: rest =>
        match exec op s with
        | none => s
        | some s1 => { s1 with main := rest }
    | .first =>
      match s.first with
      | [] => s
      | op :: rest =>
        match exec op s with
        | none => s
        | some s1 => { s1 with first := rest }
    | .second =>
      match s.second with
      | [] => s
      | op :: rest =>
        match exec op s with
        | none => s
        | some s1 => { s1 with second := rest }

/-- The relay after the goroutines have been scheduled in the order `sched`. -/
def run (sched : List Tid) (s : Relay) : Relay :=
  sched.foldl (fun s t => step t s) s

/-- The function `x11forwarder`, lines 90-113, under the schedule `sched`. After a failed
`x11Connect` it returns at once: nothing is left to run and nothing was done. -/
def x11forwarder (env : Env) (Dial : String → GoString → Except Error Conn)
    (sched : List Tid) : Outcome Relay :=
  match x11Connect env Dial with
  | .panic => .panic
  | .ret (.error _) =>
    .ret { main := [], first := [], second := [], wg := 0, dialedNil := true,
           crashed := false, trace := [] }
  | .ret (.ok _) =>
    .ret (run sched
      { main := [.wait, .close .dialed, .close .accepted]
        first := [.copy .dialed .accepted, .closeWrite .dialed, .done]
        second := [.copy .accepted .dialed, .closeWrite .accepted, .done]
        wg := 2
        dialedNil := false
        crashed := false
        trace := [] })

/-- The method `forwarder`, lines 245-267, under the schedule `sched`; `dial` is the
result of `c.Client.Dial(dialType, addr)`, whose error is not looked at. Line
265 closes `conn`, a name the function does not declare: it is read as
`remote`, the dialed connection. -/
def forwarder (dial : Except Error Conn) (sched : List Tid) : Relay :=
  run sched
    { main := [.wait, .close .dialed, .close .accepted]
      first := [.copy .dialed .accepted, .done]
      second := [.copy .accepted .dialed, .done]
      wg := 2
      dialedNil := match dial with
        | .ok _ => false
        | .error _ => true
      crashed := false
      trace := [] }

/-- The function has returned: the main goroutine has run all its statements. -/
def Relay.returned (s : Relay) : Bool :=
  s.main.isEmpty && !s.crashed

/-- The event is a write-close. -/
def Event.isCloseWrite : Event → Bool
  | .closeWrite _ => true
  | _ => false

/-- The statement is a write-close. -/
def Op.isCloseWrite : Op → Bool
  | .closeWrite _ => true
  | _ => false

/-- No write-close has happened and no goroutine has one left to run. -/
def Relay.noCloseWrite (s : Relay) : Prop :=
  (∀ op ∈ s.main, op.isCloseWrite = false) ∧ (∀ op ∈ s.first, op.isCloseWrite = false) ∧
    (∀ op ∈ s.second, op.isCloseWrite = false) ∧ ∀ ev ∈ s.trace, ev.isCloseWrite = false

/-- The relay of `forwarder` after a failed dial: the main goroutine still
waits, the only events are calls on the nil connection, and either no
goroutine has run or the process has crashed. -/
def Relay.waitingOnNil (s : Relay) : Prop :=
  s.dialedNil = true ∧ s.main = [.wait, .close .dialed, .close .accepted] ∧ s.wg = 2 ∧
    (∀ ev ∈ s.trace, ev = .nilDereference) ∧
    (s.crashed = true ∨
      (s.first = [.copy .dialed .accepted, .done] ∧
        s.second = [.copy .accepted .dialed, .done]))

/-! ## Theorems -/

set_option maxRecDepth 100000

/-! ### The reader -/

/-- At the end of the file `binary.Read` gives `io.EOF`. -/
theorem binaryReadUint16_nil : binaryReadUint16 [] = (.error .EOF, []) := rfl

/-- With one byte left `binary.Read` gives `io.ErrUnexpectedEOF`. -/
theorem binaryReadUint16_single (x : Byte) :
    binaryReadUint16 [x] = (.error .ErrUnexpectedEOF, []) := rfl

/-- With two bytes or more `binary.Read` decodes the first two. -/
theorem binaryReadUint16_cons (hi lo : Byte) (r : Reader) :
    binaryReadUint16 (hi :: lo :: r) = (.ok (hi.val * 256 + lo.val), r) := by
  simp [binaryReadUint16, ReadFull]

/-- Reading back an encoded 16-bit value. -/
theorem binaryReadUint16_encode (n : Nat) (h : n < 65536) (rest : Reader) :
    binaryReadUint16 (encodeUint16 n ++ rest) = (.ok n, rest) := by
  have h1 : n / 256 % 256 * 256 + n % 256 = n := by omega
  simp [encodeUint16, binaryReadUint16_cons, h1]

/-- A successful `binary.Read` of a `uint16` consumes two bytes. -/
theorem binaryReadUint16_length (r r1 : Reader) (n : Nat)
    (h : binaryReadUint16 r = (.ok n, r1)) : r1.length + 2 = r.length := by
  match r, h with
  | [], h => simp [binaryReadUint16_nil] at h
  | [x], h => simp [binaryReadUint16_single] at h
  | hi :: lo :: rest, h =>
    rw [binaryReadUint16_cons] at h
    cases h
    rfl

/-- The reader does not grow under `io.ReadFull`. -/
theorem ReadFull_length (r : Reader) (n : Nat) : (ReadFull r n).2.2.length ≤ r.length := by
  unfold ReadFull
  split_ifs <;> simp

/-- A read into the scratch buffer keeps its length. -/
theorem length_bufAfter (b got : List Byte) (h : got.length ≤ b.length) :
    (bufAfter b got).length = b.length := by
  simp [bufAfter]; omega

/-- The front of the scratch buffer holds what was read. -/
theorem take_bufAfter (b got : List Byte) :
    (bufAfter b got).take got.length = got := by
  simp [bufAfter]

/-- The length of an allocated buffer. -/
theorem length_makeBytes (n : Nat) : (makeBytes n).length = n :=
  List.length_replicate _ _

/-- At the end of the file `getBytes` gives `io.EOF`. -/
theorem getBytes_nil (b : List Byte) : getBytes [] b = (.error .EOF, [], b) := rfl

/-- With one byte left `getBytes` gives `io.ErrUnexpectedEOF`. -/
theorem getBytes_single (x : Byte) (b : List Byte) :
    getBytes [x] b = (.error .ErrUnexpectedEOF, [], b) := rfl

/-- A length above the capacity: only the two length bytes are consumed. -/
theorem getBytes_long (hi lo : Byte) (rest : Reader) (b : List Byte)
    (hb : b.length = 256) (hn : 256 < hi.val * 256 + lo.val) :
    getBytes (hi :: lo :: rest) b = (.error .bytesTooLong, rest, b) := by
  simp [getBytes, binaryReadUint16_cons, hb, hn]

/-- A length within the capacity never gives the error "too long". -/
theorem getBytes_short (hi lo : Byte) (rest : Reader) (b : List Byte)
    (hb : b.length = 256) (hn : hi.val * 256 + lo.val ≤ 256) :
    (getBytes (hi :: lo :: rest) b).1 ≠ .error .bytesTooLong := by
  have h : ¬ 256 < hi.val * 256 + lo.val := by omega
  simp only [getBytes, binaryReadUint16_cons, hb, Nat.reduceMod, gt_iff_lt, h, if_false]
  unfold ReadFull
  split_ifs <;> simp

/-- The file ends before the declared number of bytes has been read. -/
theorem getBytes_cut (n : Nat) (p b : List Byte) (hb : b.length = 256)
    (hn : n ≤ 256) (hp : p.length < n) :
    (getBytes (encodeUint16 n ++ p) b).1 =
      .error (if p = [] then .EOF else .ErrUnexpectedEOF) := by
  have h1 : n < 65536 := by omega
  have h2 : ¬ 256 < n := by omega
  have h3 : ¬ n ≤ p.length := by omega
  simp only [getBytes, binaryReadUint16_encode n h1, hb, Nat.reduceMod, gt_iff_lt, h2,
    if_false, ReadFull, h3]
  split_ifs <;> rfl

/-- The function `getBytes` reads back a complete field of at most 256 bytes. -/
theorem getBytes_encodeField (f : List Byte) (rest : Reader) (b : List Byte)
    (hb : b.length = 256) (hf : f.length ≤ 256) :
    getBytes (encodeField f ++ rest) b = (.ok f, rest, bufAfter b f) := by
  have h1 : f.length < 65536 := by omega
  simp [getBytes, encodeField, binaryReadUint16_encode _ h1, hb, ReadFull, take_bufAfter]
  omega

/-- The reader does not grow under `getBytes`. -/
theorem getBytes_length (r : Reader) (b : List Byte) :
    (getBytes r b).2.1.length ≤ r.length := by
  unfold getBytes
  rcases h1 : binaryReadUint16 r with ⟨res, r1⟩
  cases res with
  | error err =>
    have : r1.length ≤ r.length := by
      match r, h1 with
      | [], h => simp [binaryReadUint16_nil] at h; simp [← h.2]
      | [x], h => simp [binaryReadUint16_single] at h; simp [← h.2]
      | hi :: lo :: rest, h => simp [binaryReadUint16_cons] at h
    simpa using this
  | ok n =>
    have h2 := binaryReadUint16_length r r1 n h1
    have h3 := ReadFull_length r1 n
    simp only
    split_ifs
    · simp only; omega
    · rcases h4 : ReadFull r1 n with ⟨got, err, r2⟩
      rw [h4] at h3
      cases err <;> (simp only at h3 ⊢; omega)

/-- The function `getString` passes on the error of `getBytes`. -/
theorem getString_fst (r : Reader) (b : List Byte) (e : Error)
    (h : (getBytes r b).1 = .error e) : (getString r b).1 = .error e := by
  unfold getString
  rcases hg : getBytes r b with ⟨res, r1, b1⟩
  rw [hg] at h
  cases res with
  | error err => simpa using h
  | ok s => simp at h

/-- The function `getString` reads back a complete field of at most 256 bytes. -/
theorem getString_encodeField (f : List Byte) (rest : Reader) (b : List Byte)
    (hb : b.length = 256) (hf : f.length ≤ 256) :
    getString (encodeField f ++ rest) b = (.ok f, rest, bufAfter b f) := by
  simp [getString, getBytes_encodeField f rest b hb hf]

/-- The reader does not grow under `getString`. -/
theorem getString_length (r : Reader) (b : List Byte) :
    (getString r b).2.1.length ≤ r.length := by
  have h := getBytes_length r b
  unfold getString
  rcases hg : getBytes r b with ⟨res, r1, b1⟩
  rw [hg] at h
  cases res <;> exact h

/-! ### The loop of `readAuthority` -/

/-- Reading a record keeps the length of the scratch buffer. -/
theorem length_bufAfterRecord (b : List Byte) (rec : Record) (hb : b.length = 256)
    (hrec : rec.WellFormed) : (bufAfterRecord b rec).length = 256 := by
  obtain ⟨_, h1, h2, h3, h4⟩ := hrec
  have e1 := length_bufAfter b rec.address (by omega)
  have e2 := length_bufAfter (bufAfter b rec.address) rec.display (by omega)
  have e3 := length_bufAfter (bufAfter (bufAfter b rec.address) rec.display)
    rec.authName (by omega)
  have e4 := length_bufAfter
    (bufAfter (bufAfter (bufAfter b rec.address) rec.display) rec.authName)
    rec.authData (by omega)
  unfold bufAfterRecord
  omega

/-- Every record takes at least one byte of the file. -/
theorem length_encodeRecords_ge (recs : List Record) :
    recs.length ≤ (encodeRecords recs).length := by
  induction recs with
  | nil => simp [encodeRecords]
  | cons rec recs ih =>
    simp [encodeRecords, encodeRecord, encodeUint16, encodeField]
    omega

/-- One iteration of the loop over a complete record. -/
theorem readAuthorityLoop_record (fuel : Nat) (rec : Record) (rest : Reader)
    (b : List Byte) (hostname display : GoString) (hb : b.length = 256)
    (hrec : rec.WellFormed) :
    readAuthorityLoop (fuel + 1) (encodeRecord rec ++ rest) b hostname display =
      if rec.isMatch hostname display then
        some ⟨rec.authName, some rec.authData, none⟩
      else readAuthorityLoop fuel rest (bufAfterRecord b rec) hostname display := by
  obtain ⟨h0, h1, h2, h3, h4⟩ := hrec
  have e1 := length_bufAfter b rec.address (by omega)
  have e2 := length_bufAfter (bufAfter b rec.address) rec.display (by omega)
  have e3 := length_bufAfter (bufAfter (bufAfter b rec.address) rec.display)
    rec.authName (by omega)
  rw [readAuthorityLoop]
  simp only [encodeRecord, List.append_assoc]
  rw [binaryReadUint16_encode _ h0]
  simp only []
  rw [getString_encodeField _ _ _ hb h1]
  simp only []
  rw [getString_encodeField _ _ _ (by omega) h2]
  simp only []
  rw [getString_encodeField _ _ _ (by omega) h3]
  simp only []
  rw [getBytes_encodeField _ _ _ (by omega) h4]
  simp only [Record.isMatch, familyLocal, bufAfterRecord, decide_eq_true_eq]

/-- The loop passes over complete records that do not match, one iteration
each, and keeps the scratch buffer at its length. -/
theorem readAuthorityLoop_skip (recs : List Record) (rest : Reader)
    (hostname display : GoString) (hwf : ∀ rec ∈ recs, rec.WellFormed)
    (hno : ∀ rec ∈ recs, rec.isMatch hostname display = false) :
    ∀ (fuel : Nat) (b : List Byte), b.length = 256 →
      ∃ b1 : List Byte, b1.length = 256 ∧
        readAuthorityLoop (fuel + recs.length) (encodeRecords recs ++ rest) b
            hostname display =
          readAuthorityLoop fuel rest b1 hostname display := by
  induction recs with
  | nil => intro fuel b hb; exact ⟨b, hb, by simp [encodeRecords]⟩
  | cons rec recs ih =>
    intro fuel b hb
    have hrec : rec.WellFormed := hwf rec (List.mem_cons_self _ _)
    have hm : rec.isMatch hostname display = false := hno rec (List.mem_cons_self _ _)
    obtain ⟨b1, hb1, h⟩ := ih (fun r hr => hwf r (List.mem_cons_of_mem _ hr))
      (fun r hr => hno r (List.mem_cons_of_mem _ hr)) fuel (bufAfterRecord b rec)
      (length_bufAfterRecord b rec hb hrec)
    refine ⟨b1, hb1, ?_⟩
    rw [← h]
    simp only [encodeRecords, List.length_cons, List.append_assoc]
    rw [← Nat.add_assoc, readAuthorityLoop_record _ _ _ _ _ _ hb hrec, hm]
    simp

/-- The loop returns the first matching record of a sequence of complete
records, given one iteration per record. -/
theorem readAuthorityLoop_find (recs : List Record) (rest : Reader)
    (hostname display : GoString) (m : Record)
    (hwf : ∀ rec ∈ recs, rec.WellFormed)
    (hfind : recs.find? (Record.isMatch hostname display) = some m) :
    ∀ (fuel : Nat) (b : List Byte), b.length = 256 →
      readAuthorityLoop (fuel + recs.length) (encodeRecords recs ++ rest) b
          hostname display =
        some ⟨m.authName, some m.authData, none⟩ := by
  induction recs with
  | nil => simp at hfind
  | cons rec recs ih =>
    intro fuel b hb
    have hrec : rec.WellFormed := hwf rec (List.mem_cons_self _ _)
    simp only [encodeRecords, List.length_cons, List.append_assoc]
    rw [← Nat.add_assoc, readAuthorityLoop_record _ _ _ _ _ _ hb hrec]
    cases hm : rec.isMatch hostname display with
    | true =>
      simp only [List.find?_cons, hm, Option.some.injEq] at hfind
      simp [hfind]
    | false =>
      simp only [List.find?_cons, hm] at hfind
      simpa using ih (fun r hr => hwf r (List.mem_cons_of_mem _ hr)) hfind fuel
        (bufAfterRecord b rec) (length_bufAfterRecord b rec hb hrec)

/-- One iteration of the loop over a record that stops after at most three
complete fields: the error of the read that fails is returned. -/
theorem readAuthorityLoop_unfinished (fuel fam : Nat) (fs : List (List Byte))
    (tail : Reader) (b : List Byte) (hostname display : GoString) (e : Error)
    (hb : b.length = 256) (hfam : fam < 65536) (hfs : fs.length ≤ 3)
    (hlen : ∀ f ∈ fs, f.length ≤ 256)
    (htail : ∀ b1 : List Byte, b1.length = 256 → (getBytes tail b1).1 = .error e) :
    readAuthorityLoop (fuel + 1) (encodeUint16 fam ++ (encodeFields fs ++ tail)) b
        hostname display =
      some ⟨[], none, some e⟩ := by
  rw [readAuthorityLoop, binaryReadUint16_encode _ hfam]
  simp only []
  match fs, hfs, hlen with
  | [], _, _ =>
    have h := getString_fst tail b e (htail b hb)
    rcases hg : getString tail b with ⟨res, r1, b1⟩
    rw [hg] at h
    simp only [encodeFields, List.nil_append, hg]
    simp only at h
    subst h
    rfl
  | [f1], _, hl =>
    have l1 : f1.length ≤ 256 := hl f1 (by simp)
    have e1 := length_bufAfter b f1 (by omega)
    simp only [encodeFields, List.append_nil, List.append_assoc]
    rw [getString_encodeField _ _ _ hb l1]
    simp only []
    have h := getString_fst tail _ e (htail (bufAfter b f1) (by omega))
    rcases hg : getString tail (bufAfter b f1) with ⟨res, r1, b1⟩
    rw [hg] at h
    simp only at h
    subst h
    rfl
  | [f1, f2], _, hl =>
    have l1 : f1.length ≤ 256 := hl f1 (by simp)
    have l2 : f2.length ≤ 256 := hl f2 (by simp)
    have e1 := length_bufAfter b f1 (by omega)
    have e2 := length_bufAfter (bufAfter b f1) f2 (by omega)
    simp only [encodeFields, List.append_nil, List.append_assoc]
    rw [getString_encodeField _ _ _ hb l1]
    simp only []
    rw [getString_encodeField _ _ _ (by omega) l2]
    simp only []
    have h := getString_fst tail _ e (htail (bufAfter (bufAfter b f1) f2) (by omega))
    rcases hg : getString tail (bufAfter (bufAfter b f1) f2) with ⟨res, r1, b1⟩
    rw [hg] at h
    simp only at h
    subst h
    rfl
  | [f1, f2, f3], _, hl =>
    have l1 : f1.length ≤ 256 := hl f1 (by simp)
    have l2 : f2.length ≤ 256 := hl f2 (by simp)
    have l3 : f3.length ≤ 256 := hl f3 (by simp)
    have e1 := length_bufAfter b f1 (by omega)
    have e2 := length_bufAfter (bufAfter b f1) f2 (by omega)
    have e3 := length_bufAfter (bufAfter (bufAfter b f1) f2) f3 (by omega)
    simp only [encodeFields, List.append_nil, List.append_assoc]
    rw [getString_encodeField _ _ _ hb l1]
    simp only []
    rw [getString_encodeField _ _ _ (by omega) l2]
    simp only []
    rw [getString_encodeField _ _ _ (by omega) l3]
    simp only []
    have h := htail (bufAfter (bufAfter (bufAfter b f1) f2) f3) (by omega)
    rcases hg : getBytes tail (bufAfter (bufAfter (bufAfter b f1) f2) f3) with
      ⟨res, r1, b1⟩
    rw [hg] at h
    simp only at h
    subst h
    rfl

/-- The loop returns whenever it has more iterations than the reader has
bytes. -/
theorem readAuthorityLoop_isSome (hostname display : GoString) :
    ∀ (fuel : Nat) (r : Reader) (b : List Byte), r.length < fuel →
      (readAuthorityLoop fuel r b hostname display).isSome = true := by
  intro fuel
  induction fuel with
  | zero => intro r b h; omega
  | succ fuel ih =>
    intro r b h
    rw [readAuthorityLoop]
    rcases h0 : binaryReadUint16 r with ⟨res0, r0⟩
    cases res0 with
    | error err => rfl
    | ok family =>
      have l0 := binaryReadUint16_length r r0 family h0
      simp only
      have l1 := getString_length r0 b
      rcases hg1 : getString r0 b with ⟨res1, r1, b1⟩
      rw [hg1] at l1
      cases res1 with
      | error err => rfl
      | ok addr =>
        simp only at l1 ⊢
        have l2 := getString_length r1 b1
        rcases hg2 : getString r1 b1 with ⟨res2, r2, b2⟩
        rw [hg2] at l2
        cases res2 with
        | error err => rfl
        | ok disp =>
          simp only at l2 ⊢
          have l3 := getString_length r2 b2
          rcases hg3 : getString r2 b2 with ⟨res3, r3, b3⟩
          rw [hg3] at l3
          cases res3 with
          | error err => rfl
          | ok name0 =>
            simp only at l3 ⊢
            have l4 := getBytes_length r3 b3
            rcases hg4 : getBytes r3 b3 with ⟨res4, r4, b4⟩
            rw [hg4] at l4
            cases res4 with
            | error err => rfl
            | ok data0 =>
              simp only at l4 ⊢
              split_ifs
              · rfl
              · exact ih r4 b4 (by omega)

/-- The function `readAuthority` always returns: its loop never runs out of
iterations. -/
theorem readAuthority_isSome (env : Env) (hostname display : GoString) :
    (readAuthority env hostname display).isSome = true := by
  unfold readAuthority
  simp only
  cases resolveHostname env hostname with
  | error err => rfl
  | ok host =>
    simp only
    cases authorityFileName env with
    | error err => rfl
    | ok fname =>
      simp only
      cases env.Open fname with
      | error err => rfl
      | ok r => exact readAuthorityLoop_isSome host display _ r _ (Nat.lt_succ_self _)

/-- The function `readAuthority` once the hostname, the file name and the file
are known. -/
theorem readAuthority_eq_loop (env : Env) (hostname display host fname : GoString)
    (file : List Byte) (hhost : resolveHostname env hostname = .ok host)
    (hname : authorityFileName env = .ok fname) (hopen : env.Open fname = .ok file) :
    readAuthority env hostname display =
      readAuthorityLoop (file.length + 1) file (makeBytes 256) host display := by
  simp [readAuthority, hhost, hname, hopen]

/-- The function `readAuthority` over a file that starts with complete records
none of which matches: the loop is at the bytes after them, with an iteration
left. -/
theorem readAuthority_skip (env : Env) (hostname display host fname : GoString)
    (recs : List Record) (rest : List Byte)
    (hhost : resolveHostname env hostname = .ok host)
    (hname : authorityFileName env = .ok fname)
    (hopen : env.Open fname = .ok (encodeRecords recs ++ rest))
    (hwf : ∀ rec ∈ recs, rec.WellFormed)
    (hno : ∀ rec ∈ recs, rec.isMatch host display = false) :
    ∃ (k : Nat) (b1 : List Byte), b1.length = 256 ∧
      readAuthority env hostname display =
        readAuthorityLoop (k + 1) rest b1 host display := by
  rw [readAuthority_eq_loop env hostname display host fname _ hhost hname hopen]
  have hlen : recs.length ≤ (encodeRecords recs ++ rest).length := by
    have := length_encodeRecords_ge recs
    simp only [List.length_append]; omega
  obtain ⟨b1, hb1, h⟩ := readAuthorityLoop_skip recs rest host display hwf hno
    ((encodeRecords recs ++ rest).length + 1 - recs.length) (makeBytes 256)
    (length_makeBytes 256)
  rw [Nat.sub_add_cancel (by omega)] at h
  refine ⟨(encodeRecords recs ++ rest).length - recs.length, b1, hb1, ?_⟩
  rw [h]
  congr 1
  omega

/-! ### The cookie -/

/-- The cookie is the concatenation of the digit pairs of the bytes. -/
theorem cookieOf_eq_flatMap (xAuth : List Byte) :
    cookieOf xAuth = xAuth.flatMap sprintf02x := by
  have h : ∀ (xs : List Byte) (acc : GoString),
      xs.foldl (fun cookie d => cookie ++ sprintf02x d) acc =
        acc ++ xs.flatMap sprintf02x := by
    intro xs
    induction xs with
    | nil => intro acc; simp
    | cons x xs ih => intro acc; simp [ih]
  simpa [cookieOf] using h xAuth []

/-- Two digits per byte. -/
theorem length_flatMap_sprintf02x (xAuth : List Byte) :
    (xAuth.flatMap sprintf02x).length = 2 * xAuth.length := by
  induction xAuth with
  | nil => rfl
  | cons x xs ih => simp [sprintf02x, ih]; omega

/-- A digit is one of `0`-`9`, `a`-`f`. -/
theorem isLowerHex_hexDigit : ∀ n : Nat, n < 16 → isLowerHex (hexDigit n) = true := by
  decide

/-- Reading back a digit. -/
theorem hexValue_hexDigit : ∀ n : Nat, n < 16 → hexValue (hexDigit n) = some n := by
  decide

/-- The cookie has only the characters `0`-`9`, `a`-`f`. -/
theorem isLowerHex_flatMap_sprintf02x (xAuth : List Byte) :
    ∀ ch ∈ xAuth.flatMap sprintf02x, isLowerHex ch = true := by
  intro ch hch
  obtain ⟨d, _, hd⟩ := List.mem_flatMap.mp hch
  simp only [sprintf02x, List.mem_cons, List.mem_singleton, List.not_mem_nil, or_false] at hd
  rcases hd with rfl | rfl
  · exact isLowerHex_hexDigit _ (by omega)
  · exact isLowerHex_hexDigit _ (Nat.mod_lt _ (by decide))

/-- Hex-decoding the digit pairs gives the bytes back. -/
theorem hexDecode_flatMap_sprintf02x (xAuth : List Byte) :
    hexDecode (xAuth.flatMap sprintf02x) = some xAuth := by
  induction xAuth with
  | nil => rfl
  | cons d ds ih =>
    have h1 := hexValue_hexDigit (d.val / 16) (by omega)
    have h2 := hexValue_hexDigit (d.val % 16) (Nat.mod_lt _ (by decide))
    have h3 : (Fin.ofNat (d.val / 16 * 16 + d.val % 16) : Byte) = d := by
      apply Fin.ext
      simp only [Fin.ofNat, Nat.reduceAdd]
      omega
    rw [List.flatMap_cons]
    show hexDecode (hexDigit (d.val / 16) :: hexDigit (d.val % 16) ::
      ds.flatMap sprintf02x) = some (d :: ds)
    simp only [hexDecode, h1, h2, ih, h3]

/-! ### The relays -/

/-- A use of a connection changes no goroutine and adds no write-close, unless the
event is one. -/
theorem use_trace (s : Relay) (e : Endpoint) (ev : Event)
    (hev : ev.isCloseWrite = false) (h : ∀ x ∈ s.trace, x.isCloseWrite = false) :
    (s.use e ev).main = s.main ∧ (s.use e ev).first = s.first ∧
      (s.use e ev).second = s.second ∧ ∀ x ∈ (s.use e ev).trace, x.isCloseWrite = false := by
  unfold Relay.use
  split
  · refine ⟨rfl, rfl, rfl, ?_⟩
    intro x hx
    rcases List.mem_append.mp hx with hx | hx
    · exact h x hx
    · rw [List.mem_singleton.mp hx]; rfl
  · refine ⟨rfl, rfl, rfl, ?_⟩
    intro x hx
    rcases List.mem_append.mp hx with hx | hx
    · exact h x hx
    · rw [List.mem_singleton.mp hx]; exact hev

/-- A statement other than a write-close changes no goroutine and adds no
write-close. -/
theorem exec_trace (op : Op) (s s1 : Relay) (hop : op.isCloseWrite = false)
    (h : ∀ x ∈ s.trace, x.isCloseWrite = false) (he : exec op s = some s1) :
    s1.main = s.main ∧ s1.first = s.first ∧ s1.second = s.second ∧
      ∀ x ∈ s1.trace, x.isCloseWrite = false := by
  cases op with
  | copy dst src =>
    simp only [exec] at he
    split at he
    · cases he; exact use_trace s src _ rfl h
    · cases he; exact use_trace s dst _ rfl h
  | closeWrite e => simp [Op.isCloseWrite] at hop
  | close e =>
    simp only [exec, Option.some.injEq] at he
    subst he
    exact use_trace s e _ rfl h
  | done =>
    simp only [exec, Option.some.injEq] at he
    subst he
    exact ⟨rfl, rfl, rfl, h⟩
  | wait =>
    simp only [exec] at he
    split at he
    · cases he; exact ⟨rfl, rfl, rfl, h⟩
    · cases he

/-- A step keeps a relay free of write-closes. -/
theorem step_noCloseWrite (t : Tid) (s : Relay) (h : s.noCloseWrite) :
    (step t s).noCloseWrite := by
  obtain ⟨hm, hf, hs, ht⟩ := h
  unfold step
  split
  · exact ⟨hm, hf, hs, ht⟩
  · cases t with
    | main =>
      simp only
      cases hmain : s.main with
      | nil => exact ⟨hm, hf, hs, ht⟩
      | cons op rest =>
        rw [hmain] at hm
        simp only
        cases he : exec op s with
        | none => exact ⟨by rw [hmain]; exact hm, hf, hs, ht⟩
        | some s1 =>
          obtain ⟨_, e2, e3, e4⟩ := exec_trace op s s1 (hm op (List.mem_cons_self _ _)) ht he
          exact ⟨fun o ho => hm o (List.mem_cons_of_mem _ ho), by simpa [e2] using hf,
            by simpa [e3] using hs, e4⟩
    | first =>
      simp only
      cases hfirst : s.first with
      | nil => exact ⟨hm, hf, hs, ht⟩
      | cons op rest =>
        rw [hfirst] at hf
        simp only
        cases he : exec op s with
        | none => exact ⟨hm, by rw [hfirst]; exact hf, hs, ht⟩
        | some s1 =>
          obtain ⟨e1, _, e3, e4⟩ := exec_trace op s s1 (hf op (List.mem_cons_self _ _)) ht he
          exact ⟨by simpa [e1] using hm, fun o ho => hf o (List.mem_cons_of_mem _ ho),
            by simpa [e3] using hs, e4⟩
    | second =>
      simp only
      cases hsecond : s.second with
      | nil => exact ⟨hm, hf, hs, ht⟩
      | cons op rest =>
        rw [hsecond] at hs
        simp only
        cases he : exec op s with
        | none => exact ⟨hm, hf, by rw [hsecond]; exact hs, ht⟩
        | some s1 =>
          obtain ⟨e1, e2, _, e4⟩ := exec_trace op s s1 (hs op (List.mem_cons_self _ _)) ht he
          exact ⟨by simpa [e1] using hm, by simpa [e2] using hf,
            fun o ho => hs o (List.mem_cons_of_mem _ ho), e4⟩

/-- A schedule keeps a relay free of write-closes. -/
theorem run_noCloseWrite (sched : List Tid) :
    ∀ s : Relay, s.noCloseWrite → (run sched s).noCloseWrite := by
  induction sched with
  | nil => intro s h; exact h
  | cons t ts ih => intro s h; exact ih (step t s) (step_noCloseWrite t s h)

/-- A step keeps the relay of a failed dial waiting or crashed. -/
theorem step_waitingOnNil (t : Tid) (s : Relay) (h : s.waitingOnNil) :
    (step t s).waitingOnNil := by
  obtain ⟨h1, h2, h3, h4, h5⟩ := h
  by_cases hc : s.crashed = true
  · have : step t s = s := by simp [step, hc]
    rw [this]
    exact ⟨h1, h2, h3, h4, h5⟩
  · rcases h5 with h5 | ⟨hf, hs⟩
    · exact absurd h5 hc
    · have h6 : ∀ ev ∈ s.trace ++ [Event.nilDereference], ev = .nilDereference := by
        intro ev hev
        rcases List.mem_append.mp hev with hev | hev
        · exact h4 ev hev
        · exact List.mem_singleton.mp hev
      cases t with
      | main =>
        have : step .main s = s := by simp [step, hc, h2, exec, h3]
        rw [this]
        exact ⟨h1, h2, h3, h4, Or.inr ⟨hf, hs⟩⟩
      | first =>
        have : step .first s =
            { s with crashed := true, trace := s.trace ++ [.nilDereference],
                     first := [.done] } := by
          simp [step, hc, hf, exec, Relay.use, Relay.isNil, h1]
        rw [this]
        exact ⟨h1, h2, h3, h6, Or.inl rfl⟩
      | second =>
        have : step .second s =
            { s with crashed := true, trace := s.trace ++ [.nilDereference],
                     second := [.done] } := by
          simp [step, hc, hs, exec, Relay.use, Relay.isNil, h1]
        rw [this]
        exact ⟨h1, h2, h3, h6, Or.inl rfl⟩

/-- A schedule keeps the relay of a failed dial waiting or crashed. -/
theorem run_waitingOnNil (sched : List Tid) :
    ∀ s : Relay, s.waitingOnNil → (run sched s).waitingOnNil := by
  induction sched with
  | nil => intro s h; exact h
  | cons t ts ih => intro s h; exact ih (step t s) (step_waitingOnNil t s h)

/-! ### The credential reader: C1 to C4 -/

/-- C1. When the authority file starts with complete records, every field at
most 256 bytes long, and `m` is the first of them with family 256, the
resolved hostname as address and the target display, `readAuthority` succeeds
with the authName and authData of `m`, whatever bytes follow the records. -/
theorem readAuthority_first_match (env : Env)
    (hostname display host fname : GoString) (recs : List Record) (rest : List Byte)
    (m : Record)
    (hhost : resolveHostname env hostname = .ok host)
    (hname : authorityFileName env = .ok fname)
    (hopen : env.Open fname = .ok (encodeRecords recs ++ rest))
    (hwf : ∀ rec ∈ recs, rec.WellFormed)
    (hfind : recs.find? (Record.isMatch host display) = some m) :
    readAuthority env hostname display =
      some ⟨m.authName, some m.authData, none⟩ := by
  rw [readAuthority_eq_loop env hostname display host fname _ hhost hname hopen]
  have hlen : recs.length ≤ (encodeRecords recs ++ rest).length := by
    have := length_encodeRecords_ge recs
    simp only [List.length_append]; omega
  have h := readAuthorityLoop_find recs rest host display m hwf hfind
    ((encodeRecords recs ++ rest).length + 1 - recs.length) (makeBytes 256)
    (length_makeBytes 256)
  rwa [Nat.sub_add_cancel (by omega)] at h

/-- C1 on a file of two records followed by a stray byte: the second record is
the first that matches. -/
theorem readAuthority_first_match_witness :
    readAuthority (sampleEnv (encodeRecords [inetRecord, sampleRecord] ++ [255])) []
        (ascii "0") =
      some ⟨sampleRecord.authName, some sampleRecord.authData, none⟩ :=
  readAuthority_first_match _ [] (ascii "0") (ascii "myhost")
    (ascii "/home/u/.Xauthority") [inetRecord, sampleRecord] [255] sampleRecord
    rfl rfl rfl (by decide) (by decide)

/-- C2. When the authority file consists of complete records only, every
field at most 256 bytes long, and none has family 256, the resolved hostname
as address and the target display, `readAuthority` returns the empty name, the
nil data and the error `io.EOF`. -/
theorem readAuthority_not_found (env : Env)
    (hostname display host fname : GoString) (recs : List Record)
    (hhost : resolveHostname env hostname = .ok host)
    (hname : authorityFileName env = .ok fname)
    (hopen : env.Open fname = .ok (encodeRecords recs))
    (hwf : ∀ rec ∈ recs, rec.WellFormed)
    (hno : ∀ rec ∈ recs, rec.isMatch host display = false) :
    readAuthority env hostname display = some ⟨[], none, some .EOF⟩ := by
  rw [← List.append_nil (encodeRecords recs)] at hopen
  obtain ⟨k, b1, _, h⟩ := readAuthority_skip env hostname display host fname recs []
    hhost hname hopen hwf hno
  rw [h, readAuthorityLoop, binaryReadUint16_nil]

/-- C2 on a file of two records, looked up for display `1`. -/
theorem readAuthority_not_found_witness :
    readAuthority (sampleEnv (encodeRecords [inetRecord, sampleRecord])) []
        (ascii "1") =
      some ⟨[], none, some .EOF⟩ :=
  readAuthority_not_found _ [] (ascii "1") (ascii "myhost")
    (ascii "/home/u/.Xauthority") [inetRecord, sampleRecord]
    rfl rfl rfl (by decide) (by decide)

/-- C3. For a reader whose next two bytes are `hi`, `lo` and a scratch buffer
of 256 bytes: `getBytes` and `getString` fail with "bytes too long for buffer"
exactly when `hi * 256 + lo` exceeds 256, and then leave the reader right after
the two length bytes and the buffer untouched; and `readAuthority` returns that
error when such a length stands where a field of a record begins, after
complete records that do not match. -/
theorem getBytes_tooLong (hi lo : Byte) (rest : Reader) (b : List Byte)
    (hb : b.length = 256) :
    ((getBytes (hi :: lo :: rest) b).1 = .error .bytesTooLong ↔
        256 < hi.val * 256 + lo.val) ∧
    (256 < hi.val * 256 + lo.val →
        getBytes (hi :: lo :: rest) b = (.error .bytesTooLong, rest, b)) ∧
    ((getString (hi :: lo :: rest) b).1 = .error .bytesTooLong ↔
        256 < hi.val * 256 + lo.val) ∧
    (256 < hi.val * 256 + lo.val →
        getString (hi :: lo :: rest) b = (.error .bytesTooLong, rest, b)) ∧
    (∀ (env : Env) (hostname display host fname : GoString) (recs : List Record)
        (fam : Nat) (fs : List (List Byte)),
        resolveHostname env hostname = .ok host →
        authorityFileName env = .ok fname →
        env.Open fname = .ok (encodeRecords recs ++
          (encodeUint16 fam ++ (encodeFields fs ++ hi :: lo :: rest))) →
        (∀ rec ∈ recs, rec.WellFormed) →
        (∀ rec ∈ recs, rec.isMatch host display = false) →
        fam < 65536 → fs.length ≤ 3 → (∀ f ∈ fs, f.length ≤ 256) →
        256 < hi.val * 256 + lo.val →
        readAuthority env hostname display = some ⟨[], none, some .bytesTooLong⟩) := by
  have hiff : (getBytes (hi :: lo :: rest) b).1 = .error .bytesTooLong ↔
      256 < hi.val * 256 + lo.val := by
    constructor
    · intro h
      by_contra hn
      exact getBytes_short hi lo rest b hb (by omega) h
    · intro hn
      rw [getBytes_long hi lo rest b hb hn]
  have hstr : ∀ r1 b1, (getString r1 b1).1 = .error .bytesTooLong ↔
      (getBytes r1 b1).1 = .error .bytesTooLong := by
    intro r1 b1
    unfold getString
    rcases getBytes r1 b1 with ⟨res, r2, b2⟩
    cases res <;> simp
  refine ⟨hiff, getBytes_long hi lo rest b hb, (hstr _ _).trans hiff, ?_, ?_⟩
  · intro hn
    simp [getString, getBytes_long hi lo rest b hb hn]
  · intro env hostname display host fname recs fam fs hhost hname hopen hwf hno hfam
      hfs hlen hn
    obtain ⟨k, b1, hb1, h⟩ := readAuthority_skip env hostname display host fname recs
      _ hhost hname hopen hwf hno
    rw [h]
    refine readAuthorityLoop_unfinished k fam fs _ b1 host display _ hb1 hfam hfs hlen ?_
    intro b2 hb2
    rw [getBytes_long hi lo rest b2 hb2 hn]

/-- C3 on the declared length 257. -/
theorem getBytes_tooLong_witness :
    ((getBytes (1 :: 1 :: [7, 7]) (makeBytes 256)).1 = .error .bytesTooLong ↔
        256 < (1 : Byte).val * 256 + (1 : Byte).val) ∧
      getBytes (1 :: 1 :: [7, 7]) (makeBytes 256) =
        (.error .bytesTooLong, [7, 7], makeBytes 256) ∧
      getString (1 :: 1 :: [7, 7]) (makeBytes 256) =
        (.error .bytesTooLong, [7, 7], makeBytes 256) ∧
      readAuthority (sampleEnv (encodeRecords [inetRecord] ++
          (encodeUint16 256 ++ (encodeFields [ascii "myhost"] ++ 1 :: 1 :: [7, 7]))))
          [] (ascii "0") =
        some ⟨[], none, some .bytesTooLong⟩ :=
  have h := getBytes_tooLong 1 1 [7, 7] (makeBytes 256) (length_makeBytes 256)
  ⟨h.1, h.2.1 (by decide), h.2.2.2.1 (by decide),
    h.2.2.2.2 _ [] (ascii "0") (ascii "myhost") (ascii "/home/u/.Xauthority")
      [inetRecord] 256 [ascii "myhost"] rfl rfl rfl (by decide) (by decide) (by decide)
      (by decide) (by decide) (by decide)⟩

/-- C4, as stated, fails: a file that ends right after the family tag of a
second record gives `io.EOF`, the error of the file that ends after the first
record. -/
theorem readAuthority_truncated_counterexample :
    readAuthority (sampleEnv (encodeRecords [inetRecord] ++ encodeUint16 256)) []
        (ascii "0") = some ⟨[], none, some .EOF⟩ ∧
      readAuthority (sampleEnv (encodeRecords [inetRecord])) [] (ascii "0") =
        some ⟨[], none, some .EOF⟩ := by
  decide

/-- C4, amended. After complete records that do not match, a file that ends
after the first byte of a family tag or of a length prefix, or after at least
one but not all of the bytes a field declares, makes `readAuthority` return
`io.ErrUnexpectedEOF`; a file that ends after the last complete record, right
after a family tag, right after a complete field or right after a length
prefix makes it return `io.EOF`. -/
theorem readAuthority_truncated (env : Env) (hostname display host fname : GoString)
    (recs : List Record) (fam : Nat) (fs : List (List Byte))
    (hhost : resolveHostname env hostname = .ok host)
    (hname : authorityFileName env = .ok fname)
    (hwf : ∀ rec ∈ recs, rec.WellFormed)
    (hno : ∀ rec ∈ recs, rec.isMatch host display = false)
    (hfam : fam < 65536) (hfs : fs.length ≤ 3) (hlen : ∀ f ∈ fs, f.length ≤ 256) :
    (∀ x : Byte, env.Open fname = .ok (encodeRecords recs ++ [x]) →
        readAuthority env hostname display =
          some ⟨[], none, some .ErrUnexpectedEOF⟩) ∧
    (∀ x : Byte, env.Open fname = .ok (encodeRecords recs ++
          (encodeUint16 fam ++ (encodeFields fs ++ [x]))) →
        readAuthority env hostname display =
          some ⟨[], none, some .ErrUnexpectedEOF⟩) ∧
    (∀ (n : Nat) (p : List Byte), n ≤ 256 → p.length < n → p ≠ [] →
        env.Open fname = .ok (encodeRecords recs ++
          (encodeUint16 fam ++ (encodeFields fs ++ (encodeUint16 n ++ p)))) →
        readAuthority env hostname display =
          some ⟨[], none, some .ErrUnexpectedEOF⟩) ∧
    (env.Open fname = .ok (encodeRecords recs) →
        readAuthority env hostname display = some ⟨[], none, some .EOF⟩) ∧
    (env.Open fname = .ok (encodeRecords recs ++
          (encodeUint16 fam ++ encodeFields fs)) →
        readAuthority env hostname display = some ⟨[], none, some .EOF⟩) ∧
    (∀ n : Nat, 0 < n → n ≤ 256 →
        env.Open fname = .ok (encodeRecords recs ++
          (encodeUint16 fam ++ (encodeFields fs ++ encodeUint16 n))) →
        readAuthority env hostname display = some ⟨[], none, some .EOF⟩) := by
  refine ⟨?_, ?_, ?_, ?_, ?_, ?_⟩
  · intro x hopen
    obtain ⟨k, b1, _, h⟩ := readAuthority_skip env hostname display host fname recs _
      hhost hname hopen hwf hno
    rw [h, readAuthorityLoop, binaryReadUint16_single]
  · intro x hopen
    obtain ⟨k, b1, hb1, h⟩ := readAuthority_skip env hostname display host fname recs _
      hhost hname hopen hwf hno
    rw [h]
    exact readAuthorityLoop_unfinished k fam fs _ b1 host display _ hb1 hfam hfs hlen
      (fun b2 _ => by rw [getBytes_single])
  · intro n p hn hp hne hopen
    obtain ⟨k, b1, hb1, h⟩ := readAuthority_skip env hostname display host fname recs _
      hhost hname hopen hwf hno
    rw [h]
    refine readAuthorityLoop_unfinished k fam fs _ b1 host display _ hb1 hfam hfs hlen ?_
    intro b2 hb2
    rw [getBytes_cut n p b2 hb2 hn hp, if_neg hne]
  · intro hopen
    rw [← List.append_nil (encodeRecords recs)] at hopen
    obtain ⟨k, b1, _, h⟩ := readAuthority_skip env hostname display host fname recs _
      hhost hname hopen hwf hno
    rw [h, readAuthorityLoop, binaryReadUint16_nil]
  · intro hopen
    rw [← List.append_nil (encodeFields fs)] at hopen
    obtain ⟨k, b1, hb1, h⟩ := readAuthority_skip env hostname display host fname recs _
      hhost hname hopen hwf hno
    rw [h]
    exact readAuthorityLoop_unfinished k fam fs _ b1 host display _ hb1 hfam hfs hlen
      (fun b2 _ => by rw [getBytes_nil])
  · intro n hn0 hn hopen
    rw [← List.append_nil (encodeUint16 n)] at hopen
    obtain ⟨k, b1, hb1, h⟩ := readAuthority_skip env hostname display host fname recs _
      hhost hname hopen hwf hno
    rw [h]
    refine readAuthorityLoop_unfinished k fam fs _ b1 host display _ hb1 hfam hfs hlen ?_
    intro b2 hb2
    rw [getBytes_cut n [] b2 hb2 hn (by simpa using hn0), if_pos rfl]

/-- C4, amended, on a file that ends one byte into a field of two bytes, and on
one that ends right after the length prefix of that field. -/
theorem readAuthority_truncated_witness :
    readAuthority (sampleEnv (encodeRecords [inetRecord] ++
        (encodeUint16 256 ++ (encodeFields [ascii "myhost"] ++
          (encodeUint16 2 ++ [48]))))) [] (ascii "0") =
        some ⟨[], none, some .ErrUnexpectedEOF⟩ ∧
      readAuthority (sampleEnv (encodeRecords [inetRecord] ++
        (encodeUint16 256 ++ (encodeFields [ascii "myhost"] ++
          encodeUint16 2)))) [] (ascii "0") =
        some ⟨[], none, some .EOF⟩ :=
  ⟨(readAuthority_truncated (sampleEnv (encodeRecords [inetRecord] ++
        (encodeUint16 256 ++ (encodeFields [ascii "myhost"] ++
          (encodeUint16 2 ++ [48]))))) [] (ascii "0") (ascii "myhost")
      (ascii "/home/u/.Xauthority") [inetRecord] 256 [ascii "myhost"] rfl rfl
      (by decide) (by decide) (by decide) (by decide) (by decide)).2.2.1 2 [48]
      (by decide) (by decide) (by decide) rfl,
    (readAuthority_truncated (sampleEnv (encodeRecords [inetRecord] ++
        (encodeUint16 256 ++ (encodeFields [ascii "myhost"] ++
          encodeUint16 2)))) [] (ascii "0") (ascii "myhost")
      (ascii "/home/u/.Xauthority") [inetRecord] 256 [ascii "myhost"] rfl rfl
      (by decide) (by decide) (by decide) (by decide) (by decide)).2.2.2.2.2 2
      (by decide) (by decide) rfl⟩

/-! ### The request: C5 to C7 -/

/-- C5 fails when the transport returns an error: with the credential found
and any reply `(ok, err)` of `SendRequest` whose `err` is not nil,
`X11Forward` returns that error and has subscribed to `x11` and started the
accept loop. -/
theorem X11Forward_send_error (ok : Bool) (e : Error) :
    X11Forward (sampleEnv (encodeRecords [inetRecord, sampleRecord]))
        (fun _ _ _ => (ok, some e)) =
      some (.ret (some e,
        ⟨[("x11-req", true, x11Payload sampleRecord.authData)], ["x11"], 1⟩)) := by
  have hdisp : getX11Display (sampleEnv (encodeRecords [inetRecord, sampleRecord])) =
      .ret (.number 0) := by decide
  have hauth : readAuthority (sampleEnv (encodeRecords [inetRecord, sampleRecord]))
      (ascii "") (ascii "0") =
      some ⟨sampleRecord.authName, some sampleRecord.authData, none⟩ := by decide
  simp [X11Forward, hdisp, hauth]

/-- C6. When the display is read without a panic and `readAuthority` returns
the data `data` without an error, `X11Forward` sends one request `x11-req`
with the payload `{false, "MIT-MAGIC-COOKIE-1", c, 0}`, where `c` is the
two-digit lowercase hexadecimal form of each byte of the data, in order; `c`
is twice as long as the data, has only the characters `0`-`9` and `a`-`f`, and
hex-decodes to the data. -/
theorem X11Forward_payload (env : Env)
    (SendRequest : String → Bool → x11request → Bool × Option Error)
    (name : GoString) (data : Option (List Byte)) (v : DisplayValue)
    (hdisp : getX11Display env = .ret v)
    (hauth : readAuthority env (ascii "") (ascii "0") = some ⟨name, data, none⟩) :
    (∃ (err : Option Error) (handled : List String) (loops : Nat),
        X11Forward env SendRequest = some (.ret (err,
          ⟨[("x11-req", true,
              ⟨false, ascii "MIT-MAGIC-COOKIE-1", (data.getD []).flatMap sprintf02x, 0⟩)],
            handled, loops⟩))) ∧
      ((data.getD []).flatMap sprintf02x).length = 2 * (data.getD []).length ∧
      (∀ ch ∈ (data.getD []).flatMap sprintf02x, isLowerHex ch = true) ∧
      hexDecode ((data.getD []).flatMap sprintf02x) = some (data.getD []) := by
  refine ⟨?_, length_flatMap_sprintf02x _, isLowerHex_flatMap_sprintf02x _,
    hexDecode_flatMap_sprintf02x _⟩
  simp only [X11Forward, hdisp, hauth, x11Payload, cookieOf_eq_flatMap]
  rcases SendRequest "x11-req" true _ with ⟨ok, err⟩
  by_cases h : err = none ∧ ok = false
  · exact ⟨_, _, _, by rw [if_pos h]⟩
  · exact ⟨_, _, _, by rw [if_neg h]⟩

/-- C6 on the 16-byte cookie of the sample record. -/
theorem X11Forward_payload_witness :
    (∃ (err : Option Error) (handled : List String) (loops : Nat),
        X11Forward (sampleEnv (encodeRecords [inetRecord, sampleRecord]))
            (fun _ _ _ => (true, none)) =
          some (.ret (err,
            ⟨[("x11-req", true,
                ⟨false, ascii "MIT-MAGIC-COOKIE-1",
                  ((some sampleRecord.authData).getD []).flatMap sprintf02x, 0⟩)],
              handled, loops⟩))) ∧
      (((some sampleRecord.authData).getD []).flatMap sprintf02x).length =
        2 * ((some sampleRecord.authData).getD []).length ∧
      (∀ ch ∈ ((some sampleRecord.authData).getD []).flatMap sprintf02x,
        isLowerHex ch = true) ∧
      hexDecode (((some sampleRecord.authData).getD []).flatMap sprintf02x) =
        some ((some sampleRecord.authData).getD []) :=
  X11Forward_payload (sampleEnv (encodeRecords [inetRecord, sampleRecord]))
    (fun _ _ _ => (true, none)) sampleRecord.authName (some sampleRecord.authData)
    (.number 0) (by decide) (by decide)

/-- C7 fails for a display without a screen suffix: for `DISPLAY=":0"` and
for `DISPLAY="my.host:1"` the slice on line 126 is out of range and
`getX11Display` panics. -/
theorem getX11Display_panics :
    getX11Display (displayEnv (ascii ":0")) = .panic ∧
      getX11Display (displayEnv (ascii "my.host:1")) = .panic := by
  decide

/-! ### The relays and the display socket: C8 to C10 -/

/-- C8 fails for `forwarder`: under every schedule, and whether or not the
dial succeeded, no write-close is ever done; in the run in which both copies
end and `forwarder` returns, the only events are the two copies and the two
closes. Under the same schedule `x11forwarder` write-closes both
connections before it closes them. -/
theorem forwarder_no_closeWrite (dial : Except Error Conn) (sched : List Tid) :
    (∀ ev ∈ (forwarder dial sched).trace, ev.isCloseWrite = false) ∧
      (forwarder (.ok ⟨1⟩)
          [.first, .first, .second, .second, .main, .main, .main]).trace =
        [.copied .dialed .accepted, .copied .accepted .dialed, .close .dialed,
          .close .accepted] ∧
      (forwarder (.ok ⟨1⟩)
          [.first, .first, .second, .second, .main, .main, .main]).returned = true ∧
      x11forwarder (displayEnv (ascii ":0.0")) dialOk
          [.first, .first, .first, .second, .second, .second, .main, .main, .main] =
        .ret { main := [], first := [], second := [], wg := 0, dialedNil := false,
               crashed := false,
               trace := [.copied .dialed .accepted, .closeWrite .dialed,
                 .copied .accepted .dialed, .closeWrite .accepted, .close .dialed,
                 .close .accepted] } := by
  refine ⟨?_, by decide, by decide, by decide⟩
  refine (run_noCloseWrite sched _ ⟨?_, ?_, ?_, ?_⟩).2.2.2 <;> simp [Op.isCloseWrite]

/-- C9 fails when the dial fails. `x11forwarder` returns with nothing done: the
accepted channel is not closed. `forwarder` does not look at the error: under
every schedule it neither returns nor closes the accepted connection, and the
copy from the nil connection is a call on nil. -/
theorem relay_dial_failure (e : Error) (sched : List Tid) :
    x11forwarder (displayEnv (ascii ":0.0")) dialRefused sched =
        .ret { main := [], first := [], second := [], wg := 0, dialedNil := true,
               crashed := false, trace := [] } ∧
      (forwarder (.error e) sched).returned = false ∧
      Event.close .accepted ∉ (forwarder (.error e) sched).trace ∧
      (forwarder (.error e) [.second]).trace = [.nilDereference] := by
  have h : x11Connect (displayEnv (ascii ":0.0")) dialRefused =
      .ret (.error (.sys 111)) := rfl
  have hw : (forwarder (.error e) sched).waitingOnNil :=
    run_waitingOnNil sched _ ⟨rfl, rfl, rfl, by simp, Or.inr ⟨rfl, rfl⟩⟩
  refine ⟨by simp [x11forwarder, h], ?_, ?_, rfl⟩
  · simp [Relay.returned, hw.2.1]
  · intro hmem
    have := hw.2.2.2.1 _ hmem
    cases this

/-- C10 fails for a display without a screen suffix: for `DISPLAY=":0"` and
for `DISPLAY="my.host:1"` the slice on line 80 is out of range and `x11Connect`
panics before it dials. -/
theorem x11Connect_panics (Dial : String → GoString → Except Error Conn) :
    x11Connect (displayEnv (ascii ":0")) Dial = .panic ∧
      x11Connect (displayEnv (ascii "my.host:1")) Dial = .panic := by
  constructor <;> rfl

end Sshlib
